import Mathlib

/-!
# Verification of the Veyra task scheduler

A shallow embedding of `src/veyra/runtime/scheduler.py` (class `TaskScheduler`,
dataclass `Task`, enum `TaskStatus`) and proofs about it.

Modelling conventions:
* Python `datetime` timestamps become `Nat` (only their order matters).
* Task ids are `String`, priorities `Int` (the code accepts arbitrary ints).
* Payloads are association lists `List (String × Int)`; handler results are `Int`.
* An async handler invocation wrapped in `asyncio.wait_for` has three observable
  outcomes: a value, a raised exception (carrying `str(e)`), or a timeout.
  A real handler is an effectful function whose outcome may differ between
  attempts, so a handler behaviour is a function of the payload *and* of the
  attempt index (the task's `retries` counter at the start of the attempt).
* Python dicts keyed by task id become association lists; `d[k] = v` is
  modelled by `setEntry` (remove the key, then cons) and `d.pop(k, None)` by
  `eraseEntry` (remove the key).
* `heapq` is Python's standard binary min-heap over the dataclass order of
  `Task` — lexicographic on the `compare=True` fields `(priority, created_at)`.
  Its contract is: `heappush` adds an element, `heappop` removes and returns a
  minimal one.  We model the heap as a `List Task` with `heappush = cons` and
  `heappop = popMin` (remove the first minimal element).
-/

namespace Veyra

/-- `TaskStatus` enum from scheduler.py. -/
inductive TaskStatus where
  | pending
  | queued
  | running
  | completed
  | failed
  | cancelled
deriving DecidableEq, Repr

/-- Payload of a task: `dict[str, Any]`, modelled with `Int` values. -/
abbrev Payload := List (String × Int)

/-- The `Task` dataclass.  `priority` and `created_at` are the
`compare=True` fields giving the dataclass (and hence heap) order. -/
structure Task where
  priority : Int
  createdAt : Nat
  taskId : String
  name : String
  payload : Payload
  status : TaskStatus := .pending
  result : Option Int := none
  error : Option String := none
  retries : Nat := 0
  maxRetries : Nat := 3
deriving DecidableEq, Repr

/-- Observable outcome of one awaited handler invocation under
`asyncio.wait_for`: a returned value, a raised exception (with its
`str(e)` message), or a timeout. -/
inductive HOutcome where
  | ok (v : Int)
  | exn (msg : String)
  | timeout
deriving DecidableEq, Repr

/-- A handler behaviour: outcome as a function of the payload and of the
attempt index (the task's `retries` value when the attempt starts).  The
attempt index models the nondeterminism of an effectful async handler. -/
abbrev Handler := Payload → Nat → HOutcome

/-- The handler registry `self._handlers`: task name to handler. -/
abbrev Handlers := String → Option Handler

/-- Dataclass order of `Task`: lexicographic on `(priority, created_at)`,
the two `compare=True` fields (Python tuple comparison). -/
def taskLE (a b : Task) : Prop :=
  a.priority < b.priority ∨ (a.priority = b.priority ∧ a.createdAt ≤ b.createdAt)

instance : DecidablePred fun p : Task × Task => taskLE p.1 p.2 := by
  unfold taskLE; infer_instance

instance (a b : Task) : Decidable (taskLE a b) := by
  unfold taskLE; infer_instance

/-- One execution attempt: the body of `_execute_task` from the
`task.status = TaskStatus.RUNNING` line through the `try/except` chain,
excluding the `finally` block.  Returns the updated task and whether the
exception branch re-pushed it onto the ready queue. -/
def execAttempt (H : Handlers) (t : Task) : Task × Bool :=
  let t := { t with status := TaskStatus.running }
  match H t.name with
  | some handler =>
    match handler t.payload t.retries with
    | HOutcome.ok v =>
        ({ t with result := some v, status := TaskStatus.completed }, false)
    | HOutcome.timeout =>
        ({ t with error := some "Task timed out", status := TaskStatus.failed }, false)
    | HOutcome.exn msg =>
        let t := { t with error := some msg, retries := t.retries + 1 }
        if t.retries < t.maxRetries then
          ({ t with status := TaskStatus.queued }, true)
        else
          ({ t with status := TaskStatus.failed }, false)
  | none =>
      -- `raise ValueError(f"No handler registered for: {task.name}")` is
      -- raised inside the `try`, so it is caught by `except Exception`.
      let msg := "No handler registered for: " ++ t.name
      let t := { t with error := some msg, retries := t.retries + 1 }
      if t.retries < t.maxRetries then
        ({ t with status := TaskStatus.queued }, true)
      else
        ({ t with status := TaskStatus.failed }, false)

/-- Fields never written by `_execute_task` are preserved by an attempt. -/
theorem execAttempt_frame (H : Handlers) (t : Task) :
    (execAttempt H t).1.taskId = t.taskId ∧
    (execAttempt H t).1.priority = t.priority ∧
    (execAttempt H t).1.createdAt = t.createdAt ∧
    (execAttempt H t).1.name = t.name ∧
    (execAttempt H t).1.payload = t.payload ∧
    (execAttempt H t).1.maxRetries = t.maxRetries := by
  rcases hH : H t.name with _ | handler
  · simp only [execAttempt, hH]
    split <;> simp
  · rcases hout : handler t.payload t.retries with v | msg | _
    · simp [execAttempt, hH, hout]
    · simp only [execAttempt, hH, hout]
      split <;> simp
    · simp [execAttempt, hH, hout]

/-- When an attempt requeues the task, the exception branch ran: retries
was incremented and is still below `maxRetries`. -/
theorem execAttempt_requeue (H : Handlers) (t : Task)
    (h : (execAttempt H t).2 = true) :
    (execAttempt H t).1.retries = t.retries + 1 ∧
    t.retries + 1 < t.maxRetries ∧
    (execAttempt H t).1.maxRetries = t.maxRetries ∧
    (execAttempt H t).1.status = TaskStatus.queued := by
  rcases hH : H t.name with _ | handler
  · simp only [execAttempt, hH] at h ⊢
    split at h <;> simp_all
  · rcases hout : handler t.payload t.retries with v | msg | _
    · simp [execAttempt, hH, hout] at h
    · simp only [execAttempt, hH, hout] at h ⊢
      split at h <;> simp_all
    · simp [execAttempt, hH, hout] at h

/-- The life of one task through the scheduler: execute an attempt; if the
exception branch requeued it, the dispatch loop will eventually pop it and
execute it again (`heappush` then `heappop` return the same task object).
Terminates because every requeue strictly increases `retries` while staying
below the unchanged `maxRetries`. -/
def runTask (H : Handlers) (t : Task) : Task :=
  if h : (execAttempt H t).2 = true then
    runTask H (execAttempt H t).1
  else
    (execAttempt H t).1
termination_by t.maxRetries - t.retries
decreasing_by
  have := execAttempt_requeue H t h
  omega

theorem runTask_eq (H : Handlers) (t : Task) :
    runTask H t =
      if (execAttempt H t).2 = true then runTask H (execAttempt H t).1
      else (execAttempt H t).1 := by
  rw [runTask]
  split <;> simp_all

/-- Attempt with a registered handler that returns a value: the task is
COMPLETED with the result stored; `error` is left untouched. -/
theorem execAttempt_ok (H : Handlers) (t : Task) (hb : Handler) (v : Int)
    (hn : H t.name = some hb) (hv : hb t.payload t.retries = HOutcome.ok v) :
    execAttempt H t =
      ({ t with status := TaskStatus.completed, result := some v }, false) := by
  simp [execAttempt, hn, hv]

/-- Attempt whose handler invocation times out: FAILED immediately, error
set to the timeout message, `retries` untouched, no requeue. -/
theorem execAttempt_timeout (H : Handlers) (t : Task) (hb : Handler)
    (hn : H t.name = some hb) (hv : hb t.payload t.retries = HOutcome.timeout) :
    execAttempt H t =
      ({ t with status := TaskStatus.failed, error := some "Task timed out" },
        false) := by
  simp [execAttempt, hn, hv]

/-- The attempt starting at retry counter `n` takes the `except Exception`
path of `_execute_task` with message `m`: either no handler is registered
(the raised `ValueError` is caught by that same clause) or the handler
raises. -/
def attemptRaises (H : Handlers) (nm : String) (p : Payload) (n : Nat)
    (m : String) : Prop :=
  (H nm = none ∧ m = "No handler registered for: " ++ nm) ∨
  (∃ hb, H nm = some hb ∧ hb p n = HOutcome.exn m)

/-- Shape of an attempt that takes the exception path: error recorded,
retries incremented, then requeue exactly when still under `maxRetries`. -/
theorem execAttempt_raises (H : Handlers) (t : Task) (m : String)
    (h : attemptRaises H t.name t.payload t.retries m) :
    execAttempt H t =
      if t.retries + 1 < t.maxRetries then
        ({ t with status := TaskStatus.queued, error := some m,
                  retries := t.retries + 1 }, true)
      else
        ({ t with status := TaskStatus.failed, error := some m,
                  retries := t.retries + 1 }, false) := by
  rcases h with ⟨hn, hm⟩ | ⟨hb, hn, hm⟩
  · subst hm
    simp only [execAttempt, hn]
  · simp only [execAttempt, hn, hm]

/-- Retry loop under a permanently failing attempt (no handler, or a handler
raising with message `m n` on the attempt with retry counter `n`): the task
ends FAILED, its retry counter reaching `max maxRetries (retries + 1)`
(the `+ 1` because the counter is incremented before the bound check),
the error being the message of the last attempt, all other fields
unchanged. -/
theorem runTask_allRaise (H : Handlers) (m : Nat → String) (t : Task)
    (hf : ∀ n, attemptRaises H t.name t.payload n (m n)) :
    runTask H t =
      { t with status := TaskStatus.failed,
               error := some (m (max t.maxRetries (t.retries + 1) - 1)),
               retries := max t.maxRetries (t.retries + 1) } := by
  generalize hk : t.maxRetries - t.retries = k
  induction k generalizing t with
  | zero =>
    rw [runTask_eq, execAttempt_raises H t (m t.retries) (hf t.retries)]
    have hlt : ¬ (t.retries + 1 < t.maxRetries) := by omega
    have h1 : max t.maxRetries (t.retries + 1) = t.retries + 1 := by omega
    simp [hlt, h1]
  | succ k ih =>
    rw [runTask_eq, execAttempt_raises H t (m t.retries) (hf t.retries)]
    by_cases hlt : t.retries + 1 < t.maxRetries
    · have h1 : max t.maxRetries (t.retries + 1) = t.maxRetries := by omega
      have h2 : max t.maxRetries (t.retries + 1 + 1) = t.maxRetries := by omega
      simp only [hlt, if_true]
      rw [ih { t with status := TaskStatus.queued, error := some (m t.retries),
                      retries := t.retries + 1 } (fun n => hf n)
            (by show t.maxRetries - (t.retries + 1) = k; omega)]
      simp [h1, h2]
    · have h1 : max t.maxRetries (t.retries + 1) = t.retries + 1 := by omega
      simp [hlt, h1]

/-- Either an attempt leaves `result` untouched, or it took the success
path and set the status to COMPLETED. -/
theorem execAttempt_result_cases (H : Handlers) (t : Task) :
    (execAttempt H t).1.result = t.result ∨
    (execAttempt H t).1.status = TaskStatus.completed := by
  rcases hH : H t.name with _ | hb
  · simp only [execAttempt, hH]
    split <;> simp
  · rcases ho : hb t.payload t.retries with v | ms | _
    · simp [execAttempt, hH, ho]
    · simp only [execAttempt, hH, ho]
      split <;> simp
    · simp [execAttempt, hH, ho]

/-- A requeueing attempt does not touch `result`. -/
theorem execAttempt_requeue_result (H : Handlers) (t : Task)
    (h : (execAttempt H t).2 = true) :
    (execAttempt H t).1.result = t.result := by
  rcases hH : H t.name with _ | hb
  · simp only [execAttempt, hH] at h ⊢
    split at h <;> simp_all
  · rcases ho : hb t.payload t.retries with v | ms | _
    · simp [execAttempt, hH, ho] at h
    · simp only [execAttempt, hH, ho] at h ⊢
      split at h <;> simp_all
    · simp [execAttempt, hH, ho] at h

/-- A task that ends FAILED has its `result` field unchanged from
submission: only the success path ever writes `result`, and the success
path ends COMPLETED, is never requeued, and is never overwritten. -/
theorem runTask_result_of_failed (H : Handlers) (t : Task)
    (h : (runTask H t).status = TaskStatus.failed) :
    (runTask H t).result = t.result := by
  generalize hk : t.maxRetries - t.retries = k
  induction k generalizing t with
  | zero =>
    rw [runTask_eq] at h ⊢
    by_cases hr : (execAttempt H t).2 = true
    · exact absurd hk (by have := execAttempt_requeue H t hr; omega)
    · simp only [hr, if_false] at h ⊢
      rcases execAttempt_result_cases H t with hres | hcomp
      · exact hres
      · exact absurd (hcomp.symm.trans h) (by simp)
  | succ k ih =>
    rw [runTask_eq] at h ⊢
    by_cases hr : (execAttempt H t).2 = true
    · simp only [hr, if_true] at h ⊢
      have hq := execAttempt_requeue H t hr
      have := ih (execAttempt H t).1 h (by omega)
      rw [this, execAttempt_requeue_result H t hr]
    · simp only [hr, if_false] at h ⊢
      rcases execAttempt_result_cases H t with hres | hcomp
      · exact hres
      · exact absurd (hcomp.symm.trans h) (by simp)

/-- A task whose current attempt succeeds: single attempt, COMPLETED, the
result stored, every other field (including `error`) unchanged. -/
theorem runTask_first_ok (H : Handlers) (t : Task) (hb : Handler) (v : Int)
    (hn : H t.name = some hb) (hv : hb t.payload t.retries = HOutcome.ok v) :
    runTask H t = { t with status := TaskStatus.completed, result := some v } := by
  rw [runTask_eq, execAttempt_ok H t hb v hn hv]
  simp

theorem taskLE_refl (a : Task) : taskLE a a := by
  unfold taskLE; omega

theorem taskLE_trans {a b c : Task} (h1 : taskLE a b) (h2 : taskLE b c) :
    taskLE a c := by
  unfold taskLE at *; omega

theorem taskLE_total (a b : Task) : taskLE a b ∨ taskLE b a := by
  unfold taskLE; omega

/-- `heapq.heappop`: remove and return a task with the smallest
`(priority, created_at)` key.  (The heap's internal array layout is
irrelevant to the scheduler's behaviour; only the pop-minimum contract is.) -/
def popMin : List Task → Option (Task × List Task)
  | [] => none
  | x :: xs =>
    match popMin xs with
    | none => some (x, xs)
    | some (m, rest) => if taskLE x m then some (x, xs) else some (m, x :: rest)

theorem popMin_none {q : List Task} : popMin q = none ↔ q = [] := by
  cases q with
  | nil => simp [popMin]
  | cons x xs =>
    rcases hp : popMin xs with _ | ⟨m, rest⟩ <;> simp only [popMin, hp]
    · simp
    · split <;> simp

/-- Popping returns a permutation split of the queue. -/
theorem popMin_perm {q : List Task} {t : Task} {rest : List Task}
    (h : popMin q = some (t, rest)) : q.Perm (t :: rest) := by
  induction q generalizing t rest with
  | nil => simp [popMin] at h
  | cons x xs ih =>
    rcases hp : popMin xs with _ | ⟨m, mrest⟩ <;> simp only [popMin, hp] at h
    · rcases h with ⟨rfl, rfl⟩
      exact List.Perm.refl _
    · split at h
      · rcases h with ⟨rfl, rfl⟩
        exact List.Perm.refl _
      · rcases h with ⟨rfl, rfl⟩
        exact ((ih hp).cons x).trans (List.Perm.swap t x mrest)

/-- Popping returns a minimal task of the queue. -/
theorem popMin_min {q : List Task} {t : Task} {rest : List Task}
    (h : popMin q = some (t, rest)) : ∀ u ∈ q, taskLE t u := by
  induction q generalizing t rest with
  | nil => simp [popMin] at h
  | cons x xs ih =>
    rcases hp : popMin xs with _ | ⟨m, mrest⟩ <;> simp only [popMin, hp] at h
    · simp only [Option.some.injEq, Prod.mk.injEq] at h
      intro u hu
      have hxs : xs = [] := popMin_none.mp hp
      rw [hxs] at hu
      simp at hu
      rw [hu, ← h.1]
      exact taskLE_refl x
    · split at h
      case isTrue hle =>
        simp only [Option.some.injEq, Prod.mk.injEq] at h
        intro u hu
        rw [← h.1]
        rcases List.mem_cons.mp hu with rfl | hu
        · exact taskLE_refl _
        · exact taskLE_trans hle (ih hp u hu)
      case isFalse hle =>
        simp only [Option.some.injEq, Prod.mk.injEq] at h
        intro u hu
        rw [← h.1]
        rcases List.mem_cons.mp hu with rfl | hu
        · rcases taskLE_total u m with h' | h'
          · exact absurd h' hle
          · exact h'
        · exact ih hp u hu

theorem popMin_length {q : List Task} {t : Task} {rest : List Task}
    (h : popMin q = some (t, rest)) : rest.length + 1 = q.length := by
  have := (popMin_perm h).length_eq
  simp at this
  omega

/-- Repeatedly popping the queue: the order in which the dispatch loop
would admit the queued tasks if no new ones arrived. -/
def drain (q : List Task) : List Task :=
  match h : popMin q with
  | none => []
  | some (t, rest) => t :: drain rest
termination_by q.length
decreasing_by have := popMin_length h; omega

theorem drain_eq (q : List Task) :
    drain q = match popMin q with
      | none => []
      | some (t, rest) => t :: drain rest := by
  rw [drain]
  rcases hp : popMin q with _ | ⟨t, rest⟩ <;> simp [hp]

theorem drain_perm (q : List Task) : (drain q).Perm q := by
  generalize hn : q.length = n
  induction n using Nat.strong_induction_on generalizing q with
  | _ n ih =>
    rw [drain_eq]
    cases hp : popMin q with
    | none => simp [popMin_none.mp hp]
    | some p =>
      obtain ⟨t, rest⟩ := p
      have hlen := popMin_length hp
      have := ih rest.length (by omega) rest rfl
      exact (this.cons t).trans (popMin_perm hp).symm

theorem drain_pairwise (q : List Task) : List.Pairwise taskLE (drain q) := by
  generalize hn : q.length = n
  induction n using Nat.strong_induction_on generalizing q with
  | _ n ih =>
    rw [drain_eq]
    cases hp : popMin q with
    | none => simp
    | some p =>
      obtain ⟨t, rest⟩ := p
      have hlen := popMin_length hp
      refine List.Pairwise.cons ?_ (ih rest.length (by omega) rest rfl)
      intro u hu
      have humem : u ∈ rest := (drain_perm rest).mem_iff.mp hu
      exact popMin_min hp u ((popMin_perm hp).mem_iff.mpr (List.mem_cons_of_mem t humem))

/-! ## The scheduler state

The containers of `TaskScheduler`: `self._queue` (the heap), `self._running`
and `self._completed` (dicts from task id), and `self._running_count`.
Python dicts are modelled as association lists: assignment `d[k] = v` is
`setEntry`, removal `d.pop(k, None)` is `eraseEntry`.  Python stores the
same mutable `Task` object in several containers; the model stores values,
which agrees with the code on every query made through the public surface
(`get_status` consults the containers in an order that always hits the
freshest copy first, and `stats` only takes lengths). -/

def lookupId (id : String) (l : List (String × Task)) : Option Task :=
  (l.find? (fun p => p.1 == id)).map Prod.snd

def setEntry (k : String) (v : Task) (l : List (String × Task)) :
    List (String × Task) :=
  (k, v) :: l.filter (fun p => !(p.1 == k))

def eraseEntry (k : String) (l : List (String × Task)) :
    List (String × Task) :=
  l.filter (fun p => !(p.1 == k))

structure SchedState where
  queue : List Task
  running : List (String × Task)
  completed : List (String × Task)
  runningCount : Nat
deriving DecidableEq, Repr

/-- The scheduler's state right after `__init__`. -/
def initState : SchedState :=
  { queue := [], running := [], completed := [], runningCount := 0 }

/-- `submit`: set the task's status to QUEUED and heappush it. -/
def submitSt (t : Task) (s : SchedState) : SchedState :=
  { s with queue := { t with status := TaskStatus.queued } :: s.queue }

/-- `_process_queue`: while the queue is non-empty and the in-flight count
is under `max_concurrent`, heappop the minimal task, store it in the
running dict and bump the count.  (The `task.status = TaskStatus.RUNNING`
line that opens `_execute_task` is folded into admission.) -/
def processQueue (mc : Nat) (s : SchedState) : SchedState :=
  if s.runningCount < mc then
    match hp : popMin s.queue with
    | some (t, rest) =>
        processQueue mc
          { queue := rest,
            running := setEntry t.taskId { t with status := TaskStatus.running }
              s.running,
            completed := s.completed,
            runningCount := s.runningCount + 1 }
    | none => s
  else s
termination_by s.queue.length
decreasing_by
  have := popMin_length hp
  simp
  omega

theorem processQueue_eq (mc : Nat) (s : SchedState) :
    processQueue mc s =
      if s.runningCount < mc then
        match popMin s.queue with
        | some (t, rest) =>
            processQueue mc
              { queue := rest,
                running := setEntry t.taskId
                  { t with status := TaskStatus.running } s.running,
                completed := s.completed,
                runningCount := s.runningCount + 1 }
        | none => s
      else s := by
  rw [processQueue]
  rcases hp : popMin s.queue with _ | ⟨t, rest⟩ <;> split <;> simp [hp]

/-- The body of `_execute_task` for the running task `id`, taken as one
step: the attempt itself (`execAttempt`), the heappush of the exception
branch when retry budget remains, and the `finally` block — pop the task
from the running dict, record it in the completed dict, decrement the
in-flight counter.  Note the `finally` block runs on every path, so even a
requeued task is written into the completed dict. -/
def finishSt (H : Handlers) (id : String) (s : SchedState) : SchedState :=
  match lookupId id s.running with
  | none => s
  | some t =>
      let r := execAttempt H t
      { queue := if r.2 then r.1 :: s.queue else s.queue,
        running := eraseEntry id s.running,
        completed := setEntry id r.1 s.completed,
        runningCount := s.runningCount - 1 }

/-- `cancel`: rebuild the queue without the task, then return `True` only
when the id is in the running dict (marking that entry CANCELLED); the
`return False` is reached even when the task was just removed from the
queue. -/
def cancelSt (id : String) (s : SchedState) : SchedState × Bool :=
  let q := s.queue.filter (fun t => !(t.taskId == id))
  match lookupId id s.running with
  | some t =>
      ({ s with queue := q,
                running := setEntry id { t with status := TaskStatus.cancelled }
                  s.running }, true)
  | none => ({ s with queue := q }, false)

/-- `get_status`: consult the running dict, then the completed dict, then
scan the queue; `None` when the id is in none of them. -/
def getStatus (id : String) (s : SchedState) : Option Task :=
  match lookupId id s.running with
  | some t => some t
  | none =>
      match lookupId id s.completed with
      | some t => some t
      | none => s.queue.find? (fun t => t.taskId == id)

/-- `stats`: point-in-time counts. -/
def stats (mc : Nat) (s : SchedState) : List (String × Nat) :=
  [("queued", s.queue.length), ("running", s.runningCount),
   ("completed", s.completed.length), ("max_concurrent", mc)]

/-- One observable scheduler event: a submission, a dispatch pass, the
completion of one execution attempt, or a cancellation.  Dispatch passes
are triggered by submissions and completions but run as separate async
tasks, so they appear as independent steps that may fire at any time. -/
inductive Step (H : Handlers) (mc : Nat) : SchedState → SchedState → Prop
  | submit (t : Task) (s : SchedState) : Step H mc s (submitSt t s)
  | dispatch (s : SchedState) : Step H mc s (processQueue mc s)
  | finish (id : String) (s : SchedState) : Step H mc s (finishSt H id s)
  | cancelTask (id : String) (s : SchedState) : Step H mc s (cancelSt id s).1

/-- States reachable from a freshly constructed scheduler. -/
inductive Reach (H : Handlers) (mc : Nat) : SchedState → Prop
  | init : Reach H mc initState
  | step {s s' : SchedState} : Reach H mc s → Step H mc s s' → Reach H mc s'

/-- The inductive invariant behind the concurrency bound: the running dict
never holds more entries than the in-flight counter, which never exceeds
`max_concurrent`. -/
def SchedInv (mc : Nat) (s : SchedState) : Prop :=
  s.running.length ≤ s.runningCount ∧ s.runningCount ≤ mc

theorem processQueue_inv (mc : Nat) (s : SchedState) (h : SchedInv mc s) :
    SchedInv mc (processQueue mc s) := by
  generalize hn : s.queue.length = n
  induction n using Nat.strong_induction_on generalizing s with
  | _ n ih =>
    rw [processQueue_eq]
    by_cases hcnt : s.runningCount < mc
    · simp only [hcnt, if_true]
      cases hp : popMin s.queue with
      | none => exact h
      | some p =>
        obtain ⟨t, rest⟩ := p
        have hlen := popMin_length hp
        refine ih rest.length (by omega) _ ?_ rfl
        constructor
        · have := List.length_filter_le (fun p : String × Task => !(p.1 == t.taskId)) s.running
          simp only [setEntry, List.length_cons]
          calc (List.filter (fun p => !(p.1 == t.taskId)) s.running).length + 1
              ≤ s.running.length + 1 := by omega
            _ ≤ s.runningCount + 1 := by have := h.1; omega
        · show s.runningCount + 1 ≤ mc
          omega
    · simp only [hcnt, if_false]
      exact h

theorem submitSt_inv (mc : Nat) (t : Task) (s : SchedState)
    (h : SchedInv mc s) : SchedInv mc (submitSt t s) := h

theorem finishSt_inv (H : Handlers) (mc : Nat) (id : String) (s : SchedState)
    (h : SchedInv mc s) : SchedInv mc (finishSt H id s) := by
  unfold finishSt
  cases hl : lookupId id s.running with
  | none => exact h
  | some t =>
    have hmem : ∃ p ∈ s.running, (p.1 == id) = true := by
      unfold lookupId at hl
      rcases hf : s.running.find? (fun p => p.1 == id) with _ | p
      · rw [hf] at hl; simp at hl
      · exact ⟨p, List.mem_of_find?_eq_some hf, by simpa using List.find?_some hf⟩
    obtain ⟨p, hpmem, hpid⟩ := hmem
    have herase : (eraseEntry id s.running).length < s.running.length := by
      unfold eraseEntry
      have h1 := List.length_filter_le (fun p : String × Task => !(p.1 == id))
        s.running
      rcases Nat.lt_or_ge
        ((s.running.filter (fun p => !(p.1 == id))).length)
        s.running.length with hlt | hge
      · exact hlt
      · exfalso
        have : s.running.filter (fun p => !(p.1 == id)) = s.running := by
          apply List.filter_eq_self.mpr
          intro a ha
          by_contra hc
          have hall : (s.running.filter (fun p => !(p.1 == id))).length
              < s.running.length := by
            have := List.length_eq_length_filter_add
              (l := s.running) (fun p : String × Task => !(p.1 == id))
            have hmem2 : a ∈ s.running.filter
                (fun p : String × Task => !((!(p.1 == id)))) := by
              refine List.mem_filter.mpr ⟨ha, ?_⟩
              simp only [Bool.not_eq_true] at hc
              simp [hc]
            have hpos : 0 < (s.running.filter
                (fun p : String × Task => !((!(p.1 == id))))).length :=
              List.length_pos.mpr (List.ne_nil_of_mem hmem2)
            omega
          omega
        have hmem3 : p ∈ s.running.filter (fun p : String × Task => !(p.1 == id)) := by
          rw [this]; exact hpmem
        have := (List.mem_filter.mp hmem3).2
        simp [hpid] at this
    constructor
    · simp only []
      have := h.1
      omega
    · have := h.2
      simp only []
      omega

theorem cancelSt_inv (mc : Nat) (id : String) (s : SchedState)
    (h : SchedInv mc s) : SchedInv mc (cancelSt id s).1 := by
  unfold cancelSt
  cases hl : lookupId id s.running with
  | none => exact h
  | some t =>
    have hmem : ∃ p ∈ s.running, (p.1 == id) = true := by
      unfold lookupId at hl
      rcases hf : s.running.find? (fun p => p.1 == id) with _ | p
      · rw [hf] at hl; simp at hl
      · exact ⟨p, List.mem_of_find?_eq_some hf, by simpa using List.find?_some hf⟩
    obtain ⟨p, hpmem, hpid⟩ := hmem
    constructor
    · simp only [setEntry, List.length_cons]
      have hlt : (s.running.filter (fun p : String × Task => !(p.1 == id))).length
          < s.running.length := by
        have hsplit := List.length_eq_length_filter_add
          (l := s.running) (fun p : String × Task => !(p.1 == id))
        have hmem2 : p ∈ s.running.filter
            (fun p : String × Task => !((!(p.1 == id)))) := by
          refine List.mem_filter.mpr ⟨hpmem, ?_⟩
          simp [hpid]
        have hpos : 0 < (s.running.filter
            (fun p : String × Task => !((!(p.1 == id))))).length :=
          List.length_pos.mpr (List.ne_nil_of_mem hmem2)
        omega
      have := h.1
      omega
    · exact h.2

theorem reach_inv (H : Handlers) (mc : Nat) (s : SchedState)
    (h : Reach H mc s) : SchedInv mc s := by
  induction h with
  | init => exact ⟨Nat.le_refl 0, Nat.zero_le mc⟩
  | step _ hstep ih =>
    cases hstep with
    | submit t s => exact submitSt_inv _ _ _ ih
    | dispatch s => exact processQueue_inv _ _ ih
    | finish id s => exact finishSt_inv _ _ _ _ ih
    | cancelTask id s => exact cancelSt_inv _ _ _ ih

/-- With `max_concurrent = 0` a dispatch pass is a no-op. -/
theorem processQueue_zero (s : SchedState) : processQueue 0 s = s := by
  rw [processQueue_eq]
  simp

/-! ## Concrete fixtures used by counterexamples and witnesses -/

def noHandlers : Handlers := fun _ => none

def alwaysFail : Handler := fun _ _ => HOutcome.exn "boom"

def alwaysOk : Handler := fun _ _ => HOutcome.ok 42

def alwaysLate : Handler := fun _ _ => HOutcome.timeout

/-- Fails on the first attempt, succeeds on the retry. -/
def flaky : Handler := fun _ n => if n = 0 then HOutcome.exn "boom" else HOutcome.ok 42

def demoHandlers : Handlers := fun nm =>
  if nm = "fail" then some alwaysFail
  else if nm = "ok" then some alwaysOk
  else if nm = "late" then some alwaysLate
  else if nm = "flaky" then some flaky
  else none

/-- A NORMAL-priority task as `Task.create` would build it. -/
def mkTask (nm : String) (id : String) (mr : Nat) : Task :=
  { priority := 2, createdAt := 0, taskId := id, name := nm, payload := [],
    maxRetries := mr }

def flakyTask : Task := mkTask "flaky" "t5" 3

def flakyTask1 : Task :=
  { flakyTask with status := TaskStatus.queued, error := some "boom", retries := 1 }

/-! ## The claims -/

/-- C2 (counterexample).  The claim says a task whose name has no
registered handler is set FAILED terminally, without incrementing
`retries` and without requeuing.  In the code the `ValueError` raised for
a missing handler is caught by the same `except Exception` clause as any
handler failure: with the default `max_retries = 3` the attempt increments
`retries` to 1, sets status QUEUED and re-pushes the task. -/
theorem missing_handler_counterexample :
    (execAttempt noHandlers (mkTask "unregistered" "t4" 3)).2 = true ∧
    (execAttempt noHandlers (mkTask "unregistered" "t4" 3)).1.retries = 1 ∧
    (execAttempt noHandlers (mkTask "unregistered" "t4" 3)).1.status =
      TaskStatus.queued := by
  decide

/-- C2 (amended).  A task whose name has no registered handler fails each
attempt with the error "No handler registered for: <name>"; the attempt
increments `retries` and requeues while `retries < maxRetries`, so the
task ends FAILED with that error and `retries = max maxRetries 1` —
retry budget is consumed, contrary to the original claim. -/
theorem missing_handler_failure (H : Handlers) (t : Task)
    (hn : H t.name = none) (h0 : t.retries = 0) :
    runTask H t =
      { t with status := TaskStatus.failed,
               error := some ("No handler registered for: " ++ t.name),
               retries := max t.maxRetries 1 } := by
  rw [runTask_allRaise H (fun _ => "No handler registered for: " ++ t.name) t
    (fun _ => Or.inl ⟨hn, rfl⟩)]
  simp [h0]

/-- Witness for C2's amended theorem at a concrete input. -/
theorem missing_handler_failure_witness :
    runTask noHandlers (mkTask "unregistered" "t4" 3) =
      { (mkTask "unregistered" "t4" 3) with
          status := TaskStatus.failed,
          error := some ("No handler registered for: " ++
            (mkTask "unregistered" "t4" 3).name),
          retries := max (mkTask "unregistered" "t4" 3).maxRetries 1 } :=
  missing_handler_failure noHandlers (mkTask "unregistered" "t4" 3) rfl rfl

/-- C5 (counterexample).  The claim says an always-failing handler ends
with `retries` equal to exactly `maxRetries`.  With `max_retries = 0` the
first exception still increments `retries` to 1 before the bound check,
so the task ends FAILED with `retries = 1 ≠ 0`. -/
theorem retry_exact_counterexample :
    (mkTask "fail" "t3" 0).maxRetries = 0 ∧
    (runTask demoHandlers (mkTask "fail" "t3" 0)).status = TaskStatus.failed ∧
    (runTask demoHandlers (mkTask "fail" "t3" 0)).retries = 1 := by
  rw [runTask_allRaise demoHandlers (fun _ => "boom") (mkTask "fail" "t3" 0)
    (fun _ => Or.inr ⟨alwaysFail, rfl, rfl⟩)]
  exact ⟨rfl, rfl, rfl⟩

/-- C5 (amended).  A handler that raises on every attempt produces a
terminal FAILED task with `retries = max maxRetries 1`: exactly
`maxRetries` when `maxRetries ≥ 1`, but 1 (not 0) when `maxRetries = 0`,
since the counter is incremented before the bound check.  With
`maxRetries = 0` the failure is immediately terminal (single attempt, no
requeue). -/
theorem retry_exhaustion (H : Handlers) (t : Task) (hb : Handler)
    (m : Nat → String) (hn : H t.name = some hb)
    (hf : ∀ n, hb t.payload n = HOutcome.exn (m n)) (h0 : t.retries = 0) :
    (runTask H t).status = TaskStatus.failed ∧
    (runTask H t).retries = max t.maxRetries 1 ∧
    (t.maxRetries = 0 → (execAttempt H t).2 = false) := by
  rw [runTask_allRaise H m t (fun n => Or.inr ⟨hb, hn, hf n⟩)]
  refine ⟨rfl, by simp [h0], ?_⟩
  intro hmr
  rw [execAttempt_raises H t (m t.retries) (Or.inr ⟨hb, hn, hf t.retries⟩)]
  simp [hmr]

/-- Witness for C5's amended theorem at a concrete input. -/
theorem retry_exhaustion_witness :
    (runTask demoHandlers (mkTask "fail" "t3" 2)).status = TaskStatus.failed ∧
    (runTask demoHandlers (mkTask "fail" "t3" 2)).retries =
      max (mkTask "fail" "t3" 2).maxRetries 1 ∧
    ((mkTask "fail" "t3" 2).maxRetries = 0 →
      (execAttempt demoHandlers (mkTask "fail" "t3" 2)).2 = false) :=
  retry_exhaustion demoHandlers (mkTask "fail" "t3" 2) alwaysFail
    (fun _ => "boom") rfl (fun _ => rfl) rfl

/-- C6 (confirmed).  A handler invocation that exceeds `default_timeout`
is caught by the dedicated `except asyncio.TimeoutError` clause: the task
is FAILED immediately with the timeout error, `retries` is untouched
(the result record equals the input except for `status` and `error`), and
the attempt never requeues — independent of `maxRetries`. -/
theorem timeout_hard_failure (H : Handlers) (t : Task) (hb : Handler)
    (hn : H t.name = some hb)
    (hv : hb t.payload t.retries = HOutcome.timeout) :
    runTask H t =
      { t with status := TaskStatus.failed, error := some "Task timed out" } ∧
    (execAttempt H t).2 = false := by
  have he := execAttempt_timeout H t hb hn hv
  constructor
  · rw [runTask_eq, he]
    simp
  · rw [he]

/-- Witness for C6 at a concrete input. -/
theorem timeout_hard_failure_witness :
    runTask demoHandlers (mkTask "late" "t2" 3) =
      { (mkTask "late" "t2" 3) with
          status := TaskStatus.failed
          error := some "Task timed out" } ∧
    (execAttempt demoHandlers (mkTask "late" "t2" 3)).2 = false :=
  timeout_hard_failure demoHandlers (mkTask "late" "t2" 3) alwaysLate rfl rfl

/-- C4 (counterexample).  The claim says `result` and `error` are mutually
exclusive.  The success path never clears `error`, so a task whose
handler fails once and then succeeds on the retry ends COMPLETED with the
result *and* the stale error both set. -/
theorem result_error_counterexample :
    (runTask demoHandlers flakyTask).status = TaskStatus.completed ∧
    (runTask demoHandlers flakyTask).result = some 42 ∧
    (runTask demoHandlers flakyTask).error = some "boom" := by
  have h1 : execAttempt demoHandlers flakyTask = (flakyTask1, true) := by decide
  have h2 : runTask demoHandlers flakyTask1 =
      { flakyTask1 with status := TaskStatus.completed, result := some 42 } :=
    runTask_first_ok demoHandlers flakyTask1 flaky 42 rfl rfl
  rw [runTask_eq, h1]
  simp only [if_true]
  rw [h2]
  exact ⟨rfl, rfl, rfl⟩

/-- C4 (amended).  One direction of the exclusivity does hold: a FAILED
task's `result` is unchanged from submission (hence unset), because only
the success path writes `result` and that path terminates COMPLETED.
Likewise a task whose current attempt succeeds ends COMPLETED with
`error` unchanged.  But `error` is never cleared, so a task that succeeds
on a retry keeps the last failure message next to its result. -/
theorem result_error_fields (H : Handlers) (t : Task) (hb : Handler)
    (v : Int) (hn : H t.name = some hb) :
    ((runTask H t).status = TaskStatus.failed →
      (runTask H t).result = t.result) ∧
    (hb t.payload t.retries = HOutcome.ok v →
      runTask H t = { t with
                      status := TaskStatus.completed
                      result := some v }) :=
  ⟨runTask_result_of_failed H t,
   fun hv => runTask_first_ok H t hb v hn hv⟩

def lowTask : Task :=
  { priority := 3, createdAt := 0, taskId := "L", name := "track",
    payload := [], status := TaskStatus.queued }

def highTask : Task :=
  { priority := 1, createdAt := 1, taskId := "H", name := "track",
    payload := [], status := TaskStatus.queued }

def critTask : Task :=
  { priority := 0, createdAt := 2, taskId := "C", name := "track",
    payload := [], status := TaskStatus.queued }

/-- C7 (confirmed).  A dispatch pass pops a task with the smallest
`(priority, created_at)` key (smallest under the dataclass order every
other queued task is ≥), the rest of the queue is kept, and repeatedly
popping — the admission order of the dispatch loop — yields a sequence
that is non-decreasing in the ordering key: non-decreasing priority, and
non-decreasing `created_at` (submission order) among equal priorities. -/
theorem dispatch_order (q : List Task) (t : Task) (rest : List Task)
    (h : popMin q = some (t, rest)) :
    (∀ u ∈ q, taskLE t u) ∧ q.Perm (t :: rest) ∧
    List.Pairwise taskLE (drain q) :=
  ⟨popMin_min h, popMin_perm h, drain_pairwise q⟩

/-- Witness for C7: LOW, HIGH, CRITICAL submitted in that order; the pass
pops CRITICAL first. -/
theorem dispatch_order_witness :
    (∀ u ∈ [lowTask, highTask, critTask], taskLE critTask u) ∧
    List.Perm [lowTask, highTask, critTask] (critTask :: [lowTask, highTask]) ∧
    List.Pairwise taskLE (drain [lowTask, highTask, critTask]) :=
  dispatch_order [lowTask, highTask, critTask] critTask [lowTask, highTask]
    (by decide)

/-- C9 (confirmed).  A requeued task (the exception branch re-pushed it)
keeps its `task_id`, `priority` and `created_at` — `_execute_task` never
writes those fields — so against any freshly submitted task of equal
priority but later `created_at` it compares strictly smaller under the
heap order: retries get seniority, not penalty. -/
theorem requeue_keeps_identity (H : Handlers) (t f : Task)
    (hrq : (execAttempt H t).2 = true)
    (hp : f.priority = t.priority) (hc : t.createdAt < f.createdAt) :
    (execAttempt H t).1.taskId = t.taskId ∧
    (execAttempt H t).1.priority = t.priority ∧
    (execAttempt H t).1.createdAt = t.createdAt ∧
    taskLE (execAttempt H t).1 f ∧ ¬ taskLE f (execAttempt H t).1 := by
  obtain ⟨hid, hpr, hcr, -, -, -⟩ := execAttempt_frame H t
  refine ⟨hid, hpr, hcr, ?_, ?_⟩
  · unfold taskLE
    rw [hpr, hcr]
    omega
  · unfold taskLE
    rw [hpr, hcr]
    omega

/-- A fresh NORMAL-priority task submitted later than the fixtures. -/
def freshTask : Task := { (mkTask "fail" "t8" 3) with createdAt := 5 }

/-- Witness for C9 at a concrete requeued task. -/
theorem requeue_keeps_identity_witness :
    (execAttempt demoHandlers (mkTask "fail" "t7" 3)).1.taskId =
      (mkTask "fail" "t7" 3).taskId ∧
    (execAttempt demoHandlers (mkTask "fail" "t7" 3)).1.priority =
      (mkTask "fail" "t7" 3).priority ∧
    (execAttempt demoHandlers (mkTask "fail" "t7" 3)).1.createdAt =
      (mkTask "fail" "t7" 3).createdAt ∧
    taskLE (execAttempt demoHandlers (mkTask "fail" "t7" 3)).1 freshTask ∧
    ¬ taskLE freshTask (execAttempt demoHandlers (mkTask "fail" "t7" 3)).1 :=
  requeue_keeps_identity demoHandlers (mkTask "fail" "t7" 3) freshTask
    (by decide) (by decide) (by decide)

/-- A reachable state whose only task sits in the Ready Queue. -/
def queuedOnlyState : SchedState := submitSt (mkTask "fail" "t0" 3) initState

/-- C1 (counterexample).  The claim says `cancel` returns true when the
task was found in the Ready Queue.  In the code the `return True` sits
inside the `if task_id in self._running:` branch only; for a task that is
present in the queue (and nowhere else) `cancel` removes it from the
queue yet falls through to `return False`. -/
theorem cancel_counterexample :
    Reach noHandlers 0 queuedOnlyState ∧
    (∃ u ∈ queuedOnlyState.queue, u.taskId = "t0") ∧
    (cancelSt "t0" queuedOnlyState).2 = false ∧
    (cancelSt "t0" queuedOnlyState).1.queue = [] := by
  refine ⟨Reach.step Reach.init (Step.submit _ _), ?_, ?_, ?_⟩ <;> decide

/-- C1 (amended).  `cancel(id)` always removes every queue entry with that
id, but it returns true exactly when the id is in the running dict (that
entry is then marked CANCELLED); it returns false both for an unknown id
and for a task that was only in the Ready Queue. -/
theorem cancel_return_value (id : String) (s : SchedState) :
    ((cancelSt id s).2 = true ↔ (lookupId id s.running).isSome = true) ∧
    (cancelSt id s).1.queue = s.queue.filter (fun t => !(t.taskId == id)) := by
  unfold cancelSt
  rcases hl : lookupId id s.running with _ | t <;> simp [hl]

/-- C10 (confirmed).  For a task held only by the Ready Queue (its id is
in neither the running nor the completed dict), `cancel` removes it from
the queue and writes no task's status — the running and completed dicts
are untouched and the new queue is a filter of the old, so the removed
task object keeps status QUEUED and is never marked CANCELLED — and a
subsequent `get_status` finds the id in no container and returns None. -/
theorem cancel_queued_only (id : String) (s : SchedState)
    (hr : lookupId id s.running = none)
    (hc : lookupId id s.completed = none) :
    getStatus id (cancelSt id s).1 = none ∧
    (cancelSt id s).1.running = s.running ∧
    (cancelSt id s).1.completed = s.completed ∧
    (cancelSt id s).1.queue = s.queue.filter (fun t => !(t.taskId == id)) := by
  unfold cancelSt
  simp only [hr]
  refine ⟨?_, by trivial, by trivial, by trivial⟩
  unfold getStatus
  simp only [hr, hc]
  rw [List.find?_eq_none]
  intro x hx
  have hmem := List.mem_filter.mp hx
  simpa using hmem.2

/-- Witness for C10 at a concrete state. -/
theorem cancel_queued_only_witness :
    getStatus "t0" (cancelSt "t0" queuedOnlyState).1 = none ∧
    (cancelSt "t0" queuedOnlyState).1.running = queuedOnlyState.running ∧
    (cancelSt "t0" queuedOnlyState).1.completed = queuedOnlyState.completed ∧
    (cancelSt "t0" queuedOnlyState).1.queue =
      queuedOnlyState.queue.filter (fun t => !(t.taskId == "t0")) :=
  cancel_queued_only "t0" queuedOnlyState rfl rfl

/-- An attempt never leaves a task with status RUNNING: each of the three
outcome paths overwrites the status with COMPLETED, FAILED or QUEUED. -/
theorem execAttempt_status_ne_running (H : Handlers) (t : Task) :
    (execAttempt H t).1.status ≠ TaskStatus.running := by
  rcases hH : H t.name with _ | hb
  · simp only [execAttempt, hH]
    split <;> simp
  · rcases ho : hb t.payload t.retries with v | ms | _
    · simp [execAttempt, hH, ho]
    · simp only [execAttempt, hH, ho]
      split <;> simp
    · simp [execAttempt, hH, ho]

/-- Statuses held outside the running dict: every task in the Ready Queue
has status QUEUED, and no completed-dict entry has status RUNNING. -/
def StatusInv (s : SchedState) : Prop :=
  (∀ u ∈ s.queue, u.status = TaskStatus.queued) ∧
  (∀ p ∈ s.completed, p.2.status ≠ TaskStatus.running)

theorem processQueue_statusInv (mc : Nat) (s : SchedState) (h : StatusInv s) :
    StatusInv (processQueue mc s) := by
  generalize hn : s.queue.length = n
  induction n using Nat.strong_induction_on generalizing s with
  | _ n ih =>
    rw [processQueue_eq]
    by_cases hcnt : s.runningCount < mc
    · simp only [hcnt, if_true]
      cases hp : popMin s.queue with
      | none => exact h
      | some p =>
        obtain ⟨t, rest⟩ := p
        have hlen := popMin_length hp
        refine ih rest.length (by omega) _ ⟨?_, h.2⟩ rfl
        intro u hu
        exact h.1 u ((popMin_perm hp).mem_iff.mpr (List.mem_cons_of_mem t hu))
    · simp only [hcnt, if_false]
      exact h

theorem finishSt_statusInv (H : Handlers) (id : String) (s : SchedState)
    (h : StatusInv s) : StatusInv (finishSt H id s) := by
  unfold finishSt
  cases hl : lookupId id s.running with
  | none => exact h
  | some t =>
    constructor
    · intro u hu
      simp only [] at hu
      by_cases hr : (execAttempt H t).2 = true
      · simp only [hr, if_true] at hu
        rcases List.mem_cons.mp hu with rfl | hu
        · exact (execAttempt_requeue H t hr).2.2.2
        · exact h.1 u hu
      · simp only [hr, if_false] at hu
        exact h.1 u hu
    · intro p hp
      simp only [setEntry] at hp
      rcases List.mem_cons.mp hp with rfl | hp
      · exact execAttempt_status_ne_running H t
      · exact h.2 p (List.mem_filter.mp hp).1

theorem cancelSt_statusInv (id : String) (s : SchedState) (h : StatusInv s) :
    StatusInv (cancelSt id s).1 := by
  unfold cancelSt
  cases hl : lookupId id s.running with
  | some t =>
    exact ⟨fun u hu => h.1 u (List.mem_filter.mp hu).1, h.2⟩
  | none =>
    exact ⟨fun u hu => h.1 u (List.mem_filter.mp hu).1, h.2⟩

theorem submitSt_statusInv (t : Task) (s : SchedState) (h : StatusInv s) :
    StatusInv (submitSt t s) := by
  constructor
  · intro u hu
    rcases List.mem_cons.mp hu with rfl | hu
    · rfl
    · exact h.1 u hu
  · exact h.2

theorem reach_statusInv (H : Handlers) (mc : Nat) (s : SchedState)
    (h : Reach H mc s) : StatusInv s := by
  induction h with
  | init => exact ⟨fun u hu => by simp [initState] at hu,
      fun p hp => by simp [initState] at hp⟩
  | step _ hstep ih =>
    cases hstep with
    | submit t s => exact submitSt_statusInv _ _ ih
    | dispatch s => exact processQueue_statusInv _ _ ih
    | finish id s => exact finishSt_statusInv _ _ _ ih
    | cancelTask id s => exact cancelSt_statusInv _ _ ih

/-- Number of tasks with status RUNNING across all three containers. -/
def runningStatusCount (s : SchedState) : Nat :=
  (s.queue.filter (fun t => t.status == TaskStatus.running)).length +
  (s.running.filter (fun p => p.2.status == TaskStatus.running)).length +
  (s.completed.filter (fun p => p.2.status == TaskStatus.running)).length

/-- C8 (confirmed).  In every reachable state the number of tasks in
RUNNING status never exceeds `max_concurrent`: RUNNING tasks live only in
the running dict, whose size is bounded by the in-flight counter, which
the dispatch loop only increments under the `running_count <
max_concurrent` guard.  And with `max_concurrent = 0` a dispatch pass
pops nothing: it leaves any state unchanged, so submitted tasks stay
queued. -/
theorem concurrency_bound (H : Handlers) (mc : Nat) (s : SchedState)
    (h : Reach H mc s) :
    runningStatusCount s ≤ mc ∧ s.runningCount ≤ mc ∧
    (∀ s' : SchedState, processQueue 0 s' = s') := by
  have hi := reach_inv H mc s h
  have hs := reach_statusInv H mc s h
  refine ⟨?_, hi.2, fun s' => processQueue_zero s'⟩
  unfold runningStatusCount
  have h1 : s.queue.filter (fun t => t.status == TaskStatus.running) = [] := by
    rw [List.filter_eq_nil_iff]
    intro u hu
    simp [hs.1 u hu]
  have h3 : s.completed.filter (fun p => p.2.status == TaskStatus.running)
      = [] := by
    rw [List.filter_eq_nil_iff]
    intro p hp
    simpa using hs.2 p hp
  have h2 := List.length_filter_le
    (fun p : String × Task => p.2.status == TaskStatus.running) s.running
  rw [h1, h3]
  simp only [List.length_nil]
  have := hi.1
  have := hi.2
  omega

/-- Witness for C8 at a concrete reachable state. -/
theorem concurrency_bound_witness :
    runningStatusCount initState ≤ 2 ∧ initState.runningCount ≤ 2 ∧
    (∀ s' : SchedState, processQueue 0 s' = s') :=
  concurrency_bound noHandlers 2 initState Reach.init

def failTask : Task := mkTask "fail" "t0" 3

def failTaskQ : Task := { failTask with status := TaskStatus.queued }

def failTaskR : Task := { failTask with status := TaskStatus.running }

/-- `failTask` after its first failed attempt: requeued with the error
recorded and one retry consumed. -/
def failTask1 : Task :=
  { failTask with status := TaskStatus.queued, error := some "boom",
                  retries := 1 }

/-- Submit `failTask`, run one dispatch pass (`max_concurrent = 1`), then
let its first execution attempt finish (the handler raises, retry budget
remains). -/
def badTrace : SchedState :=
  finishSt demoHandlers "t0" (processQueue 1 (submitSt failTask initState))

theorem badTrace_mid :
    processQueue 1 (submitSt failTask initState) =
      { queue := [], running := [("t0", failTaskR)], completed := [],
        runningCount := 1 } := by
  have h1 : submitSt failTask initState =
      { queue := [failTaskQ], running := [], completed := [],
        runningCount := 0 } := rfl
  rw [h1, processQueue_eq]
  have hpop : popMin [failTaskQ] = some (failTaskQ, []) := by decide
  simp only [hpop, Nat.zero_lt_one, if_true]
  rw [processQueue_eq]
  simp only [Nat.lt_irrefl, if_false]
  decide

theorem badTrace_eval :
    badTrace =
      { queue := [failTask1], running := [], completed := [("t0", failTask1)],
        runningCount := 0 } := by
  unfold badTrace
  rw [badTrace_mid]
  decide

/-- C3 (counterexample).  The claim says each task is held by exactly one
of the three containers at every reachable state.  But the `finally`
block of `_execute_task` writes the task into `_completed`
unconditionally, even when the exception branch has just re-pushed it
onto the queue: after one failed attempt of a task with retry budget
left, the task is in the Ready Queue *and* in the completed dict
simultaneously. -/
theorem ownership_counterexample :
    Reach demoHandlers 1 badTrace ∧
    (∃ u ∈ badTrace.queue, u.taskId = "t0") ∧
    (lookupId "t0" badTrace.completed).isSome = true := by
  refine ⟨?_, ?_, ?_⟩
  · exact Reach.step (Reach.step (Reach.step Reach.init
      (Step.submit failTask initState)) (Step.dispatch _)) (Step.finish "t0" _)
  · rw [badTrace_eval]
    decide
  · rw [badTrace_eval]
    decide

/-- C3 (amended).  Container exclusivity fails exactly on the requeue
path: whenever a running task's attempt takes the exception branch with
retry budget left, the completing step leaves the task both in the Ready
Queue (the re-pushed copy, found by its id) and in the completed dict
(written by the unconditional `finally` block), though it is removed from
the running dict. -/
theorem requeue_double_ownership (H : Handlers) (id : String)
    (s : SchedState) (t : Task) (hl : lookupId id s.running = some t)
    (hid : t.taskId = id) (hrq : (execAttempt H t).2 = true) :
    (∃ u ∈ (finishSt H id s).queue, u.taskId = id) ∧
    lookupId id (finishSt H id s).completed = some (execAttempt H t).1 ∧
    lookupId id (finishSt H id s).running = none := by
  unfold finishSt
  simp only [hl]
  refine ⟨⟨(execAttempt H t).1, ?_, ?_⟩, ?_, ?_⟩
  · simp [hrq]
  · rw [(execAttempt_frame H t).1, hid]
  · simp [lookupId, setEntry]
  · simp only [eraseEntry, lookupId]
    have hfind : List.find? (fun p : String × Task => p.1 == id)
        (List.filter (fun p => !(p.1 == id)) s.running) = none := by
      rw [List.find?_eq_none]
      intro p hp
      have := (List.mem_filter.mp hp).2
      simpa using this
    rw [hfind]
    rfl

/-- Witness for C3's amended theorem at a concrete state. -/
theorem requeue_double_ownership_witness :
    (∃ u ∈ (finishSt demoHandlers "t0"
        { queue := [], running := [("t0", failTaskR)], completed := [],
          runningCount := 1 }).queue, u.taskId = "t0") ∧
    lookupId "t0" (finishSt demoHandlers "t0"
        { queue := [], running := [("t0", failTaskR)], completed := [],
          runningCount := 1 }).completed =
      some (execAttempt demoHandlers failTaskR).1 ∧
    lookupId "t0" (finishSt demoHandlers "t0"
        { queue := [], running := [("t0", failTaskR)], completed := [],
          runningCount := 1 }).running = none :=
  requeue_double_ownership demoHandlers "t0"
    { queue := [], running := [("t0", failTaskR)], completed := [],
      runningCount := 1 } failTaskR (by decide) (by decide) (by decide)

/-- Witness for C4's amended theorem at a concrete input. -/
theorem result_error_fields_witness :
    ((runTask demoHandlers (mkTask "ok" "t6" 3)).status = TaskStatus.failed →
      (runTask demoHandlers (mkTask "ok" "t6" 3)).result =
        (mkTask "ok" "t6" 3).result) ∧
    (alwaysOk (mkTask "ok" "t6" 3).payload (mkTask "ok" "t6" 3).retries =
        HOutcome.ok 42 →
      runTask demoHandlers (mkTask "ok" "t6" 3) =
        { (mkTask "ok" "t6" 3) with
            status := TaskStatus.completed
            result := some 42 }) :=
  result_error_fields demoHandlers (mkTask "ok" "t6" 3) alwaysOk 42 rfl

end Veyra
